import Mathlib

/-!
Formalisation of the metadata discovery and ingestion queue implemented in
`listenbrainz/spotify_metadata_cache/spotify_lookup_queue.py`.

The Python module defines a deduplicating priority queue (`UniqueQueue` over
`JobItem`, a frozen ordered dataclass with fields `priority` then
`spotify_id`), a discovery engine (`SpotifyIdsQueue.discover_albums`), a
fetch-and-persist pipeline (`fetch_album`, `insert_album`,
`process_spotify_id`) and a worker loop (`SpotifyIdsQueue.run`).

Modelling conventions:
* `JobItem` comparison is the lexicographic order on `(priority, spotify_id)`,
  exactly the order Python derives for `@dataclass(order=True)` with those
  fields (string comparison is by code point in both languages).
* Python's `queue.PriorityQueue` contents are modelled as the list of pending
  items; `get` returns a minimal element (what `heapq` pops) and removes it.
* External Spotify calls are inputs: the paginated track listing of an album
  is a list of pages, the paginated album listing of an artist is a list of
  pages in which `none` marks a page whose fetch raises an exception.
* Wall-clock readings (`datetime.utcnow()`) are parameters, measured in
  microseconds (the resolution of `datetime`); each distinct call to
  `utcnow()` in the source is a distinct parameter.
-/

/-- Update interval of the reporting schedule, in seconds (`UPDATE_INTERVAL`). -/
def UPDATE_INTERVAL : Nat := 60

/-- Retention window in days (`CACHE_TIME`). -/
def CACHE_TIME : Nat := 180

/-- Priority of transitively discovered albums (`DISCOVERED_ALBUM_PRIORITY`). -/
def DISCOVERED_ALBUM_PRIORITY : Nat := 1

/-- Priority of directly submitted albums (`INCOMING_ALBUM_PRIORITY`). -/
def INCOMING_ALBUM_PRIORITY : Nat := 0

/-- Fixed fast-cache key stem (`CACHE_KEY_PREFIX` in the source). -/
def CACHE_KEY_STEM : String := "spotify:album:"

/-- Fast-cache key for an album id: fixed stem concatenated with the id. -/
def cacheKey (spotify_id : String) : String := CACHE_KEY_STEM ++ spotify_id

/-- A queued work item: `JobItem(priority, spotify_id)`, a frozen dataclass
with `order=True` and `eq=True`. -/
structure JobItem where
  priority : Nat
  spotify_id : String
deriving DecidableEq, Repr

/-- Strict comparison of job items: the lexicographic order on the field tuple
`(priority, spotify_id)` generated by `@dataclass(order=True)`. -/
def JobItem.lt (a b : JobItem) : Prop :=
  a.priority < b.priority ∨ (a.priority = b.priority ∧ a.spotify_id < b.spotify_id)

/-- Non-strict comparison of job items, lexicographic on
`(priority, spotify_id)`. -/
def JobItem.le (a b : JobItem) : Prop :=
  a.priority < b.priority ∨ (a.priority = b.priority ∧ a.spotify_id ≤ b.spotify_id)

instance (a b : JobItem) : Decidable (JobItem.lt a b) := by
  unfold JobItem.lt; infer_instance

instance (a b : JobItem) : Decidable (JobItem.le a b) := by
  unfold JobItem.le; infer_instance

theorem JobItem.le_refl (a : JobItem) : JobItem.le a a :=
  Or.inr ⟨rfl, le_rfl⟩

theorem JobItem.lt_le {a b : JobItem} (h : JobItem.lt a b) : JobItem.le a b := by
  rcases h with h | ⟨h₁, h₂⟩
  · exact Or.inl h
  · exact Or.inr ⟨h₁, le_of_lt h₂⟩

theorem JobItem.not_lt_le {a b : JobItem} (h : ¬ JobItem.lt a b) : JobItem.le b a := by
  unfold JobItem.lt at h
  push_neg at h
  obtain ⟨h₁, h₂⟩ := h
  rcases Nat.lt_or_ge b.priority a.priority with hp | hp
  · exact Or.inl hp
  · have hpe : a.priority = b.priority := Nat.le_antisymm hp h₁
    exact Or.inr ⟨hpe.symm, le_of_not_lt (h₂ hpe)⟩

theorem JobItem.le_trans {a b c : JobItem} (hab : JobItem.le a b)
    (hbc : JobItem.le b c) : JobItem.le a c := by
  rcases hab with hab | ⟨hab₁, hab₂⟩ <;> rcases hbc with hbc | ⟨hbc₁, hbc₂⟩
  · exact Or.inl (Nat.lt_trans hab hbc)
  · exact Or.inl (hbc₁ ▸ hab)
  · exact Or.inl (hab₁ ▸ hbc)
  · exact Or.inr ⟨hab₁.trans hbc₁, hab₂.trans hbc₂⟩

theorem JobItem.le_antisymm {a b : JobItem} (hab : JobItem.le a b)
    (hba : JobItem.le b a) : a = b := by
  rcases hab with hab | ⟨hab₁, hab₂⟩ <;> rcases hba with hba | ⟨hba₁, hba₂⟩
  · exact absurd (Nat.lt_trans hab hba) (Nat.lt_irrefl _)
  · exact absurd (hba₁ ▸ hab) (Nat.lt_irrefl _)
  · exact absurd (hab₁ ▸ hba) (Nat.lt_irrefl _)
  · have h1 : a.priority = b.priority := hab₁
    have h2 : a.spotify_id = b.spotify_id := hab₂.antisymm hba₂
    cases a; cases b
    simp only at h1 h2
    simp [h1, h2]

/-- Minimal element of a list of job items, in the lexicographic order; this is
the element `heapq` pops from the heap underlying `queue.PriorityQueue`. -/
def minJI : List JobItem → Option JobItem
  | [] => none
  | x :: xs =>
    match minJI xs with
    | none => some x
    | some m => some (if JobItem.lt m x then m else x)

theorem minJI_eq_none {l : List JobItem} : minJI l = none ↔ l = [] := by
  cases l with
  | nil => simp [minJI]
  | cons x xs =>
    simp only [minJI]
    cases minJI xs <;> simp

theorem minJI_mem {l : List JobItem} {m : JobItem} (h : minJI l = some m) :
    m ∈ l := by
  induction l with
  | nil => simp [minJI] at h
  | cons x xs ih =>
    simp only [minJI] at h
    cases hxs : minJI xs with
    | none =>
      rw [hxs] at h
      simp at h
      simp [h]
    | some m₀ =>
      rw [hxs] at h
      simp at h
      by_cases hlt : JobItem.lt m₀ x
      · simp [hlt] at h
        subst h
        exact List.mem_cons_of_mem _ (ih hxs)
      · simp [hlt] at h
        simp [h]

theorem minJI_min {l : List JobItem} {m : JobItem} (h : minJI l = some m) :
    ∀ x ∈ l, JobItem.le m x := by
  induction l generalizing m with
  | nil => simp [minJI] at h
  | cons x xs ih =>
    simp only [minJI] at h
    cases hxs : minJI xs with
    | none =>
      rw [hxs] at h
      simp at h
      subst h
      intro y hy
      rcases List.mem_cons.mp hy with rfl | hy
      · exact JobItem.le_refl _
      · rw [minJI_eq_none.mp hxs] at hy
        simp at hy
    | some m₀ =>
      rw [hxs] at h
      simp at h
      by_cases hlt : JobItem.lt m₀ x
      · simp [hlt] at h
        subst h
        intro y hy
        rcases List.mem_cons.mp hy with rfl | hy
        · exact JobItem.lt_le hlt
        · exact ih hxs y hy
      · simp [hlt] at h
        subst h
        intro y hy
        rcases List.mem_cons.mp hy with rfl | hy
        · exact JobItem.le_refl _
        · exact JobItem.le_trans (JobItem.not_lt_le hlt) (ih hxs y hy)

/-- The deduplicating priority queue (`UniqueQueue`): a `PriorityQueue` paired
with a membership set. The pending items are modelled as the list of queue
contents; the membership set always equals the set of pending items, so it is
not modelled separately. -/
structure UniqueQueue where
  queue : List JobItem
deriving DecidableEq, Repr

/-- A freshly constructed `UniqueQueue` is empty. -/
def UniqueQueue.init : UniqueQueue := ⟨[]⟩

/-- Source `UniqueQueue.put`: enqueue `d` and return `True` unless `d` (the
full item, priority included) is already in the membership set, in which case
return `False` and leave the queue unchanged. -/
def UniqueQueue.put (q : UniqueQueue) (d : JobItem) : UniqueQueue × Bool :=
  if d ∈ q.queue then (q, false) else (⟨q.queue ++ [d]⟩, true)

/-- Source `UniqueQueue.get`: pop the minimal pending item (what
`PriorityQueue.get` returns) and remove it from the membership set. `none`
models the blocking behaviour on an empty queue: `PriorityQueue.get()` is
called with no timeout, so it waits indefinitely and never raises `Empty`. -/
def UniqueQueue.get (q : UniqueQueue) : Option (JobItem × UniqueQueue) :=
  match minJI q.queue with
  | none => none
  | some m => some (m, ⟨q.queue.erase m⟩)

/-- Source `UniqueQueue.size`. -/
def UniqueQueue.size (q : UniqueQueue) : Nat := q.queue.length

/-- A track of an album listing; only the artist ids matter to the pipeline.
An empty string models a `null` artist id (both are falsy in
`if track_artist["id"]`). -/
structure Track where
  artists : List String
deriving DecidableEq, Repr

/-- The value held under the `"tracks"` key of an album payload: either the
paging object embedded by the album-detail endpoint (never inspected by the
code), or the plain accumulated track list written by
`album["tracks"] = tracks` inside the pagination loop. -/
inductive TracksVal where
  | raw : TracksVal
  | combined : List Track → TracksVal
deriving DecidableEq, Repr

/-- The album payload handed to `insert_album`: the opaque detail blob from
`sp.album` plus the value of its `"tracks"` key. -/
structure AlbumPayload where
  detail : String
  tracks : TracksVal
deriving DecidableEq, Repr

/-- One row of `mapping.spotify_metadata_cache`. Timestamps are in
microseconds. -/
structure StoreRec where
  data : AlbumPayload
  last_refresh : Nat
  expires_at : Nat
deriving DecidableEq, Repr

/-- The mutable state touched by `SpotifyIdsQueue`: the Redis fast cache
(key to absolute expiry in seconds), the Timescale table, the frontier set
`discovered_artists`, the work queue, and the two `stats` counters. -/
structure PipeState where
  cache : List (String × Nat)
  store : List (String × StoreRec)
  discovered_artists : List String
  queue : UniqueQueue
  discovered_albums : Nat
  albums_inserted : Nat
deriving DecidableEq, Repr

/-- Insert-or-overwrite under a string key (keys are unique): the
`ON CONFLICT ... DO UPDATE` upsert of the durable store, and likewise the
effect of `cache.set` followed by `cache.expireat` on the fast cache. -/
def upsertAssoc {β : Type} : List (String × β) → String → β → List (String × β)
  | [], k, v => [(k, v)]
  | p :: tl, k, v => if p.1 = k then (k, v) :: tl else p :: upsertAssoc tl k v

/-- The external Spotify service, as consumed by the pipeline: per album id
its detail blob and the pages of its track listing; per artist id the pages
of its album listing, where `none` marks a page whose fetch raises. -/
structure SpotifyEnv where
  albumDetail : String → String
  trackPages : String → List (List Track)
  artistAlbumPages : String → List (Option (List String))

/-- Pagination of `sp.artist_albums` inside `discover_albums`: the album ids
are accumulated in the local `albums` list across pages and the function
returns `none` (an exception escapes) if any page fetch raises, discarding
everything accumulated so far. -/
def collectPages : List (Option (List String)) → Option (List String)
  | [] => some []
  | none :: _ => none
  | some p :: rest => (collectPages rest).map fun acc => p ++ acc

/-- The submission loop at the end of `discover_albums`: put each discovered
album id on the queue at `DISCOVERED_ALBUM_PRIORITY` and bump the
`discovered_albums` counter only when `put` returned `True`. -/
def submitAlbums (st : PipeState) : List String → PipeState
  | [] => st
  | aid :: rest =>
    let r := st.queue.put ⟨DISCOVERED_ALBUM_PRIORITY, aid⟩
    let st1 := { st with
      queue := r.1,
      discovered_albums := if r.2 then st.discovered_albums + 1 else st.discovered_albums }
    submitAlbums st1 rest

/-- Source `SpotifyIdsQueue.discover_albums artist_id`. Returns the new state
and whether an exception escaped (`true` when a page fetch raised). The
artist is added to `discovered_artists` before any fetch, so it stays marked
even when the enumeration fails. -/
def discover_albums (env : SpotifyEnv) (st : PipeState) (artist_id : String) :
    PipeState × Bool :=
  if artist_id ∈ st.discovered_artists then (st, false)
  else
    let st1 := { st with discovered_artists := artist_id :: st.discovered_artists }
    match collectPages (env.artistAlbumPages artist_id) with
    | none => (st1, true)
    | some albums => (submitAlbums st1 albums, false)

/-- Invoke `discover_albums` on each artist id in turn, skipping falsy ids
(`if track_artist["id"]`), aborting as soon as one invocation raises. -/
def discoverIds (env : SpotifyEnv) : List String → PipeState → PipeState × Bool
  | [], st => (st, false)
  | aid :: rest, st =>
    if aid = "" then discoverIds env rest st
    else
      match discover_albums env st aid with
      | (st1, true) => (st1, true)
      | (st1, false) => discoverIds env rest st1

/-- Artist ids of a track list, in iteration order of the nested `for` loops
of `fetch_album`. -/
def trackArtists (tracks : List Track) : List String :=
  (tracks.map Track.artists).flatten

/-- Body of the inner discovery pass of `fetch_album`: `for track in tracks:
for track_artist in track.get("artists"): ...`. -/
def discoverTracks (env : SpotifyEnv) (tracks : List Track) (st : PipeState) :
    PipeState × Bool :=
  discoverIds env (trackArtists tracks) st

/-- The `while results.get("next")` loop of `fetch_album`, iterating over the
remaining pages with `tracks` the accumulated items so far. Each iteration
extends `tracks` with the freshly fetched page and then runs the discovery
pass over the whole accumulated list (exactly what the source does).
Returns the accumulated tracks, the state, and whether an exception escaped. -/
def fetchLoop (env : SpotifyEnv) :
    List (List Track) → List Track → PipeState → List Track × PipeState × Bool
  | [], tracks, st => (tracks, st, false)
  | page :: rest, tracks, st =>
    let tracks1 := tracks ++ page
    match discoverTracks env tracks1 st with
    | (st1, true) => (tracks1, st1, true)
    | (st1, false) => fetchLoop env rest tracks1 st1

/-- Source `SpotifyIdsQueue.fetch_album`. The album detail is fetched, then
the first track page; on an empty first page the album is returned as-is.
The `"tracks"` key is overwritten with the accumulated list only inside the
pagination loop, so it keeps its raw value when there is a single page. -/
def fetch_album (env : SpotifyEnv) (st : PipeState) (album_id : String) :
    AlbumPayload × PipeState × Bool :=
  let album : AlbumPayload := ⟨env.albumDetail album_id, TracksVal.raw⟩
  match env.trackPages album_id with
  | [] => (album, st, false)
  | p0 :: rest =>
    if p0 = [] then (album, st, false)
    else
      match fetchLoop env rest p0 st with
      | (_, st1, true) => (album, st1, true)
      | (tracks, st1, false) =>
        if rest.isEmpty then (album, st1, false)
        else ({ album with tracks := TracksVal.combined tracks }, st1, false)

/-- Microseconds per second, the resolution of `datetime.timestamp()` before
`int(...)` truncates it. -/
def MICROS_PER_SECOND : Nat := 1000000

/-- The retention window `timedelta(days=CACHE_TIME)` in microseconds. -/
def RETENTION_MICROS : Nat := CACHE_TIME * 86400 * MICROS_PER_SECOND

/-- Source `SpotifyIdsQueue.insert_album`. `t1` and `t2` are the readings of
the two separate `datetime.utcnow()` calls, in microseconds. The row is
upserted, then `cache.set` plus `cache.expireat(key, int(expires_at.timestamp()))`
pin the fast-cache marker to the expiry truncated to whole seconds, and the
`albums_inserted` counter is bumped. -/
def insert_album (t1 t2 : Nat) (st : PipeState) (album_id : String)
    (data : AlbumPayload) : PipeState :=
  let last_refresh := t1
  let expires_at := t2 + RETENTION_MICROS
  { st with
    store := upsertAssoc st.store album_id ⟨data, last_refresh, expires_at⟩,
    cache := upsertAssoc st.cache (cacheKey album_id) (expires_at / MICROS_PER_SECOND),
    albums_inserted := st.albums_inserted + 1 }

/-- Source `SpotifyIdsQueue.process_spotify_id`. If the fast-cache marker is
present the call returns at once; otherwise it fetches (letting any exception
escape) and persists. The second component is `true` when an exception
escaped. -/
def process_spotify_id (env : SpotifyEnv) (t1 t2 : Nat) (st : PipeState)
    (spotify_id : String) : PipeState × Bool :=
  if (st.cache.lookup (cacheKey spotify_id)).isSome then (st, false)
  else
    match fetch_album env st spotify_id with
    | (_, st1, true) => (st1, true)
    | (album, st1, false) => (insert_album t1 t2 st1 spotify_id album, false)

/-- One iteration of the `while not self.done` body of `SpotifyIdsQueue.run`.
`now` is the `monotonic()` reading after processing and `update_time` the
pending report deadline. The result is `none` when the queue is empty: the
iteration is then stuck inside `queue.get()`, which is called without a
timeout and blocks indefinitely, so the `except Empty` branch is unreachable
and no report can be emitted while idle. Otherwise the result carries the new
state, the new report deadline, and whether `update_metrics` ran; when
`process_spotify_id` raises, `except Exception` logs and the report check is
skipped for that iteration. -/
def runStep (env : SpotifyEnv) (t1 t2 now update_time : Nat) (st : PipeState) :
    Option (PipeState × Nat × Bool) :=
  match st.queue.get with
  | none => none
  | some (item, q1) =>
    let st1 := { st with queue := q1 }
    match process_spotify_id env t1 t2 st1 item.spotify_id with
    | (st2, true) => some (st2, update_time, false)
    | (st2, false) =>
      if update_time < now then some (st2, now + UPDATE_INTERVAL, true)
      else some (st2, update_time, false)

/-- The worker loop run until its queue drains, with the outcome of
`process_spotify_id` for each id abstracted by `fails` (`true` means the call
raises and the `except Exception` handler logs and continues). Mirrors the
loop of `run`: the item is removed by `get` before processing and never
re-enqueued. Returns the ids in processing order, each paired with whether
its processing succeeded. -/
def runDrain (fails : String → Bool) : Nat → UniqueQueue → List (String × Bool)
  | 0, _ => []
  | fuel + 1, q =>
    match q.get with
    | none => []
    | some (item, q1) =>
      (item.spotify_id, !(fails item.spotify_id)) :: runDrain fails fuel q1

/-- The priority of the item `take()` would return, if any. -/
def takePriority (q : UniqueQueue) : Option Nat :=
  q.get.map fun r => r.1.priority

/-- The item `take()` would return, if any. -/
def takeItem (q : UniqueQueue) : Option JobItem :=
  q.get.map Prod.fst

/-- The empty pipeline state a fresh `SpotifyIdsQueue` starts from. -/
def initState : PipeState :=
  { cache := [], store := [], discovered_artists := [], queue := UniqueQueue.init,
    discovered_albums := 0, albums_inserted := 0 }

/-- A Spotify service with no albums, no tracks and no artist catalogs. -/
def trivialEnv : SpotifyEnv :=
  { albumDetail := fun _ => "", trackPages := fun _ => [],
    artistAlbumPages := fun _ => [] }

theorem lookup_upsertAssoc {β : Type} (l : List (String × β)) (k : String) (v : β) :
    (upsertAssoc l k v).lookup k = some v := by
  induction l with
  | nil => simp [upsertAssoc, List.lookup]
  | cons p tl ih =>
    by_cases h : p.1 = k
    · simp [upsertAssoc, h, List.lookup]
    · have hbeq : (k == p.1) = false := by
        simp [beq_iff_eq]
        exact fun he => h he.symm
      simp [upsertAssoc, h, List.lookup, hbeq, ih]

theorem UniqueQueue.get_eq_none {q : UniqueQueue} : q.get = none ↔ q.queue = [] := by
  constructor
  · intro hg
    unfold UniqueQueue.get at hg
    cases h : minJI q.queue with
    | none => exact minJI_eq_none.mp h
    | some m => rw [h] at hg; simp at hg
  · intro hq
    unfold UniqueQueue.get
    rw [hq]
    simp [minJI]

theorem UniqueQueue.get_eq_some {q : UniqueQueue} {m : JobItem} {q1 : UniqueQueue}
    (h : q.get = some (m, q1)) :
    m ∈ q.queue ∧ q1.queue = q.queue.erase m ∧ ∀ x ∈ q.queue, JobItem.le m x := by
  unfold UniqueQueue.get at h
  cases hm : minJI q.queue with
  | none => rw [hm] at h; simp at h
  | some m0 =>
    rw [hm] at h
    simp only [Option.some.injEq, Prod.mk.injEq] at h
    obtain ⟨h1, h2⟩ := h
    subst h1
    refine ⟨minJI_mem hm, ?_, minJI_min hm⟩
    rw [← h2]

/-- C1. As stated the claim fails: `UniqueQueue.put` deduplicates on the whole
`JobItem`, so an id pending at `INCOMING_ALBUM_PRIORITY` can be submitted
again at `DISCOVERED_ALBUM_PRIORITY`; the second `put` returns `True` and the
queue then holds two items with the same id. -/
theorem C1_counterexample :
    ((UniqueQueue.init.put ⟨INCOMING_ALBUM_PRIORITY, "x"⟩).1.put
        ⟨DISCOVERED_ALBUM_PRIORITY, "x"⟩).2 = true ∧
    ((UniqueQueue.init.put ⟨INCOMING_ALBUM_PRIORITY, "x"⟩).1.put
        ⟨DISCOVERED_ALBUM_PRIORITY, "x"⟩).1.queue =
      [⟨INCOMING_ALBUM_PRIORITY, "x"⟩, ⟨DISCOVERED_ALBUM_PRIORITY, "x"⟩] := by
  decide

/-- C1 (amended). Queue deduplication is by the `(priority, entry_id)` pair:
resubmitting a pending item with its pending priority returns `False` and
leaves the queue unchanged (so the original priority is retained), while the
same entry id under a different priority is accepted, the second `put`
returning `True` and the queue then holding both items. -/
theorem C1_theorem (q : UniqueQueue) (p₁ p₂ : Nat) (id : String)
    (hmem : (⟨p₁, id⟩ : JobItem) ∈ q.queue) :
    q.put ⟨p₁, id⟩ = (q, false) ∧
    ((⟨p₂, id⟩ : JobItem) ∉ q.queue →
      (q.put ⟨p₂, id⟩).2 = true ∧
      (⟨p₁, id⟩ : JobItem) ∈ (q.put ⟨p₂, id⟩).1.queue ∧
      (⟨p₂, id⟩ : JobItem) ∈ (q.put ⟨p₂, id⟩).1.queue) := by
  constructor
  · simp [UniqueQueue.put, hmem]
  · intro hne
    refine ⟨?_, ?_, ?_⟩ <;> simp [UniqueQueue.put, hne]
    exact Or.inl hmem

/-- C1 witness: `"x"` pending at priority 0; resubmitting it at priority 0 is
refused, resubmitting it at priority 1 is accepted alongside the original. -/
theorem C1_witness :
    (UniqueQueue.mk [⟨0, "x"⟩]).put ⟨0, "x"⟩ = (UniqueQueue.mk [⟨0, "x"⟩], false) ∧
    ((UniqueQueue.mk [⟨0, "x"⟩]).put ⟨1, "x"⟩).2 = true ∧
    (⟨0, "x"⟩ : JobItem) ∈ ((UniqueQueue.mk [⟨0, "x"⟩]).put ⟨1, "x"⟩).1.queue ∧
    (⟨1, "x"⟩ : JobItem) ∈ ((UniqueQueue.mk [⟨0, "x"⟩]).put ⟨1, "x"⟩).1.queue := by
  have h := C1_theorem (UniqueQueue.mk [⟨0, "x"⟩]) 0 1 "x" (by decide)
  exact ⟨h.1, h.2 (by decide)⟩

/-- C7. If an `INCOMING_ALBUM_PRIORITY` item and a `DISCOVERED_ALBUM_PRIORITY`
item are both pending, `get` returns an item at `INCOMING_ALBUM_PRIORITY`,
whatever the arrival order (the statement quantifies over every queue content
containing both). -/
theorem C7_theorem (q : UniqueQueue) (a b : JobItem)
    (ha : a ∈ q.queue) (hpa : a.priority = INCOMING_ALBUM_PRIORITY)
    (hb : b ∈ q.queue) (hpb : b.priority = DISCOVERED_ALBUM_PRIORITY) :
    takePriority q = some INCOMING_ALBUM_PRIORITY := by
  cases hg : q.get with
  | none =>
    rw [UniqueQueue.get_eq_none] at hg
    rw [hg] at ha
    simp at ha
  | some r =>
    obtain ⟨m, q1⟩ := r
    obtain ⟨hm, _, hmin⟩ := UniqueQueue.get_eq_some hg
    have hle := hmin a ha
    have hzero : m.priority = 0 := by
      rcases hle with hlt | ⟨heq, _⟩
      · exact absurd (hpa ▸ hlt) (by simp [INCOMING_ALBUM_PRIORITY])
      · rw [heq, hpa]; rfl
    simp [takePriority, hg, hzero, INCOMING_ALBUM_PRIORITY]

/-- C7 witness: the discovered item `("b", 1)` arrived before the incoming
item `("a", 0)`, and `get` still returns the incoming one. -/
theorem C7_witness :
    takePriority (UniqueQueue.mk [⟨DISCOVERED_ALBUM_PRIORITY, "b"⟩,
      ⟨INCOMING_ALBUM_PRIORITY, "a"⟩]) = some INCOMING_ALBUM_PRIORITY :=
  C7_theorem _ ⟨INCOMING_ALBUM_PRIORITY, "a"⟩ ⟨DISCOVERED_ALBUM_PRIORITY, "b"⟩
    (by decide) rfl (by decide) rfl

/-- C10. Among pending items of one priority tier, `get` returns the item with
the lexicographically smallest id, and the result is invariant under
permutation of the queue contents, hence independent of arrival order. -/
theorem C10_theorem (q q' : UniqueQueue) (p : Nat)
    (hne : q.queue ≠ [])
    (hp : ∀ x ∈ q.queue, x.priority = p)
    (hperm : q.queue.Perm q'.queue) :
    takeItem q = takeItem q' ∧
    (q.queue.all fun x =>
      (takeItem q).any fun m => decide (m.spotify_id ≤ x.spotify_id)) = true := by
  cases hg : q.get with
  | none =>
    rw [UniqueQueue.get_eq_none] at hg
    exact absurd hg hne
  | some r =>
    obtain ⟨m, q1⟩ := r
    obtain ⟨hm, _, hmin⟩ := UniqueQueue.get_eq_some hg
    cases hg' : q'.get with
    | none =>
      rw [UniqueQueue.get_eq_none] at hg'
      rw [hg'] at hperm
      rw [List.perm_nil] at hperm
      exact absurd hperm hne
    | some r' =>
      obtain ⟨m', q1'⟩ := r'
      obtain ⟨hm', _, hmin'⟩ := UniqueQueue.get_eq_some hg'
      have heq : m = m' := by
        have h1 : JobItem.le m m' := hmin m' (hperm.mem_iff.mpr hm')
        have h2 : JobItem.le m' m := hmin' m (hperm.mem_iff.mp hm)
        exact JobItem.le_antisymm h1 h2
      constructor
      · simp [takeItem, hg, hg', heq]
      · rw [List.all_eq_true]
        intro x hx
        have hle := hmin x hx
        have hid : m.spotify_id ≤ x.spotify_id := by
          rcases hle with hlt | ⟨_, hle₂⟩
          · rw [hp m hm, hp x hx] at hlt
            exact absurd hlt (Nat.lt_irrefl _)
          · exact hle₂
        have htake : takeItem q = some m := by simp [takeItem, hg]
        rw [htake, Option.any_some]
        exact decide_eq_true hid

/-- C10 witness: two discovered-priority items that arrived in opposite orders
in two queues; `get` returns `"a"` (the smaller id) from both. -/
theorem C10_witness :
    takeItem (UniqueQueue.mk [⟨1, "b"⟩, ⟨1, "a"⟩]) =
      takeItem (UniqueQueue.mk [⟨1, "a"⟩, ⟨1, "b"⟩]) ∧
    ((UniqueQueue.mk [⟨1, "b"⟩, ⟨1, "a"⟩]).queue.all fun x =>
      (takeItem (UniqueQueue.mk [⟨1, "b"⟩, ⟨1, "a"⟩])).any
        fun m => decide (m.spotify_id ≤ x.spotify_id)) = true :=
  C10_theorem (UniqueQueue.mk [⟨1, "b"⟩, ⟨1, "a"⟩])
    (UniqueQueue.mk [⟨1, "a"⟩, ⟨1, "b"⟩]) 1
    (by decide) (by decide) (by decide)

/-- C6. With an empty queue the loop iteration never completes: `queue.get()`
is called without a timeout, so it blocks indefinitely, the `except Empty`
handler is unreachable, and no metrics report is emitted no matter how far
`now` has passed the report deadline. The bounded-wait behaviour the claim
(and the dead `except Empty: sleep(5)` handler) describe is absent. -/
theorem C6_theorem (env : SpotifyEnv) (t1 t2 now update_time : Nat)
    (st : PipeState) (h : st.queue.queue = []) :
    runStep env t1 t2 now update_time st = none := by
  unfold runStep
  have hg : st.queue.get = none := UniqueQueue.get_eq_none.mpr h
  rw [hg]

/-- C6 witness: an idle worker whose report deadline passed 940 time units
ago still emits nothing — the iteration is stuck in `queue.get()`. -/
theorem C6_witness :
    runStep trivialEnv 0 0 1000 60 initState = none :=
  C6_theorem trivialEnv 0 0 1000 60 initState rfl

/-- C9. If the fast-cache marker for an id is present, `process_spotify_id`
returns at once with the state untouched (so the store, cache, counters,
frontier and queue are all unchanged) and raises nothing; the result holds
for every Spotify environment and every pair of clock readings, so no
external call can have been consulted. -/
theorem C9_theorem (env : SpotifyEnv) (t1 t2 : Nat) (st : PipeState)
    (spotify_id : String)
    (h : (st.cache.lookup (cacheKey spotify_id)).isSome = true) :
    process_spotify_id env t1 t2 st spotify_id = (st, false) := by
  unfold process_spotify_id
  rw [h]
  simp

/-- C9 witness: with the marker for `"x"` cached, processing `"x"` leaves the
state exactly as it was and raises nothing. -/
theorem C9_witness :
    process_spotify_id trivialEnv 3 7
      { initState with cache := [(cacheKey "x", 42)] } "x" =
    ({ initState with cache := [(cacheKey "x", 42)] }, false) :=
  C9_theorem trivialEnv 3 7 { initState with cache := [(cacheKey "x", 42)] }
    "x" (by decide)

/-- C5. As stated the claim fails: `insert_album` reads `utcnow()` twice
(readings 0 and 1 microsecond here), so the stored `expires_at` exceeds
`last_refresh` plus the 180-day window by the gap between the readings, and
`cache.expireat` receives `int(expires_at.timestamp())`, the expiry truncated
to whole seconds, which differs from `expires_at` itself. -/
theorem C5_counterexample :
    ((insert_album 0 1 initState "x" ⟨"d", TracksVal.raw⟩).store.lookup "x") =
      some ⟨⟨"d", TracksVal.raw⟩, 0, RETENTION_MICROS + 1⟩ ∧
    RETENTION_MICROS + 1 ≠ 0 + RETENTION_MICROS ∧
    ((insert_album 0 1 initState "x" ⟨"d", TracksVal.raw⟩).cache.lookup
        (cacheKey "x")) = some ((RETENTION_MICROS + 1) / MICROS_PER_SECOND) ∧
    ((RETENTION_MICROS + 1) / MICROS_PER_SECOND) * MICROS_PER_SECOND ≠
      RETENTION_MICROS + 1 := by
  refine ⟨?_, by decide, ?_, by decide⟩ <;> decide

/-- C5 (amended). The durable record stores `last_refresh` from the first
clock reading and `expires_at` as the second clock reading plus the 180-day
retention window (equal to `last_refresh` plus the window exactly when the
two readings coincide); the fast-cache marker under the prefixed key is set
to expire at `expires_at` truncated down to a whole second — within the
second containing `expires_at` and never after it. -/
theorem C5_theorem (t1 t2 : Nat) (st : PipeState) (album_id : String)
    (data : AlbumPayload) :
    ((insert_album t1 t2 st album_id data).store.lookup album_id) =
      some ⟨data, t1, t2 + RETENTION_MICROS⟩ ∧
    ((insert_album t1 t2 st album_id data).cache.lookup (cacheKey album_id)) =
      some ((t2 + RETENTION_MICROS) / MICROS_PER_SECOND) ∧
    ((t2 + RETENTION_MICROS) / MICROS_PER_SECOND) * MICROS_PER_SECOND ≤
      t2 + RETENTION_MICROS ∧
    t2 + RETENTION_MICROS <
      ((t2 + RETENTION_MICROS) / MICROS_PER_SECOND + 1) * MICROS_PER_SECOND ∧
    (insert_album t1 t2 st album_id data).albums_inserted =
      st.albums_inserted + 1 := by
  refine ⟨?_, ?_, ?_, ?_, rfl⟩
  · exact lookup_upsertAssoc _ _ _
  · exact lookup_upsertAssoc _ _ _
  · exact Nat.div_mul_le_self _ _
  · have hmod := Nat.div_add_mod (t2 + RETENTION_MICROS) 1000000
    have hlt : (t2 + RETENTION_MICROS) % 1000000 < 1000000 :=
      Nat.mod_lt _ (by norm_num)
    simp only [MICROS_PER_SECOND]
    omega

theorem submitAlbums_discovered (l : List String) :
    ∀ st : PipeState, (submitAlbums st l).discovered_artists = st.discovered_artists := by
  induction l with
  | nil => intro st; rfl
  | cons aid rest ih =>
    intro st
    simp only [submitAlbums]
    rw [ih]

theorem discover_albums_mono {env : SpotifyEnv} {st : PipeState} {a x : String}
    (hx : x ∈ st.discovered_artists) :
    x ∈ (discover_albums env st a).1.discovered_artists := by
  unfold discover_albums
  by_cases hm : a ∈ st.discovered_artists
  · simp [hm, hx]
  · simp only [if_neg hm]
    cases hc : collectPages (env.artistAlbumPages a) with
    | none => simpa using Or.inr hx
    | some albums =>
      simp only
      rw [submitAlbums_discovered]
      simpa using Or.inr hx

theorem discover_albums_self (env : SpotifyEnv) (st : PipeState) (a : String) :
    a ∈ (discover_albums env st a).1.discovered_artists := by
  unfold discover_albums
  by_cases hm : a ∈ st.discovered_artists
  · simp [hm]
  · simp only [if_neg hm]
    cases hc : collectPages (env.artistAlbumPages a) with
    | none => simp
    | some albums =>
      simp only
      rw [submitAlbums_discovered]
      simp

theorem discover_albums_ok {env : SpotifyEnv} {a : String}
    (hok : collectPages (env.artistAlbumPages a) ≠ none) (st : PipeState) :
    (discover_albums env st a).2 = false := by
  unfold discover_albums
  by_cases hm : a ∈ st.discovered_artists
  · simp [hm]
  · simp only [if_neg hm]
    cases hc : collectPages (env.artistAlbumPages a) with
    | none => exact absurd hc hok
    | some albums => simp

theorem discoverIds_mono (env : SpotifyEnv) :
    ∀ (ids : List String) (st : PipeState) (x : String),
      x ∈ st.discovered_artists →
      x ∈ (discoverIds env ids st).1.discovered_artists := by
  intro ids
  induction ids with
  | nil => intro st x hx; exact hx
  | cons aid rest ih =>
    intro st x hx
    simp only [discoverIds]
    by_cases he : aid = ""
    · simp only [if_pos he]
      exact ih st x hx
    · simp only [if_neg he]
      cases hd : discover_albums env st aid with
      | mk st1 b =>
        have hx1 : x ∈ st1.discovered_artists := by
          have := @discover_albums_mono env st aid x hx
          rw [hd] at this
          exact this
        cases b
        · exact ih st1 x hx1
        · exact hx1

theorem discoverIds_ok (env : SpotifyEnv)
    (hok : ∀ a, collectPages (env.artistAlbumPages a) ≠ none) :
    ∀ (ids : List String) (st : PipeState), (discoverIds env ids st).2 = false := by
  intro ids
  induction ids with
  | nil => intro st; rfl
  | cons aid rest ih =>
    intro st
    simp only [discoverIds]
    by_cases he : aid = ""
    · simp only [if_pos he]
      exact ih st
    · simp only [if_neg he]
      cases hd : discover_albums env st aid with
      | mk st1 b =>
        have hb : b = false := by
          have := discover_albums_ok (hok aid) st
          rw [hd] at this
          exact this
        subst hb
        exact ih st1

theorem discoverIds_covers (env : SpotifyEnv)
    (hok : ∀ a, collectPages (env.artistAlbumPages a) ≠ none) :
    ∀ (ids : List String) (st : PipeState) (aid : String),
      aid ∈ ids → aid ≠ "" →
      aid ∈ (discoverIds env ids st).1.discovered_artists := by
  intro ids
  induction ids with
  | nil => intro st aid h; simp at h
  | cons a rest ih =>
    intro st aid hmem hne
    simp only [discoverIds]
    rcases List.mem_cons.mp hmem with rfl | hmem
    · simp only [if_neg hne]
      cases hd : discover_albums env st aid with
      | mk st1 b =>
        have hb : b = false := by
          have := discover_albums_ok (hok aid) st
          rw [hd] at this
          exact this
        subst hb
        have hself : aid ∈ st1.discovered_artists := by
          have := discover_albums_self env st aid
          rw [hd] at this
          exact this
        exact discoverIds_mono env rest st1 aid hself
    · by_cases he : a = ""
      · simp only [if_pos he]
        exact ih st aid hmem hne
      · simp only [if_neg he]
        cases hd : discover_albums env st a with
        | mk st1 b =>
          have hb : b = false := by
            have := discover_albums_ok (hok a) st
            rw [hd] at this
            exact this
          subst hb
          exact ih st1 aid hmem hne

theorem trackArtists_append (l1 l2 : List Track) :
    trackArtists (l1 ++ l2) = trackArtists l1 ++ trackArtists l2 := by
  simp [trackArtists]

theorem fetchLoop_ok (env : SpotifyEnv)
    (hok : ∀ a, collectPages (env.artistAlbumPages a) ≠ none) :
    ∀ (pages : List (List Track)) (acc : List Track) (st : PipeState),
      (fetchLoop env pages acc st).1 = acc ++ pages.flatten ∧
      (fetchLoop env pages acc st).2.2 = false := by
  intro pages
  induction pages with
  | nil => intro acc st; simp [fetchLoop]
  | cons page rest ih =>
    intro acc st
    simp only [fetchLoop]
    cases hd : discoverTracks env (acc ++ page) st with
    | mk st1 b =>
      have hb : b = false := by
        have : (discoverTracks env (acc ++ page) st).2 = false :=
          discoverIds_ok env hok (trackArtists (acc ++ page)) st
        rw [hd] at this
        exact this
      subst hb
      simp only
      obtain ⟨h1, h2⟩ := ih (acc ++ page) st1
      refine ⟨?_, h2⟩
      rw [h1]
      simp

theorem fetchLoop_covers (env : SpotifyEnv)
    (hok : ∀ a, collectPages (env.artistAlbumPages a) ≠ none) :
    ∀ (pages : List (List Track)) (acc : List Track) (st : PipeState),
      pages ≠ [] →
      ∀ aid ∈ trackArtists (acc ++ pages.flatten), aid ≠ "" →
        aid ∈ (fetchLoop env pages acc st).2.1.discovered_artists := by
  intro pages
  induction pages with
  | nil => intro acc st h; exact absurd rfl h
  | cons page rest ih =>
    intro acc st _ aid haid hne
    simp only [fetchLoop]
    cases hd : discoverTracks env (acc ++ page) st with
    | mk st1 b =>
      have hb : b = false := by
        have : (discoverTracks env (acc ++ page) st).2 = false :=
          discoverIds_ok env hok (trackArtists (acc ++ page)) st
        rw [hd] at this
        exact this
      subst hb
      simp only
      cases hr : rest with
      | nil =>
        have haid1 : aid ∈ trackArtists (acc ++ page) := by
          subst hr
          simpa using haid
        have : aid ∈ (discoverTracks env (acc ++ page) st).1.discovered_artists :=
          discoverIds_covers env hok (trackArtists (acc ++ page)) st aid haid1 hne
        rw [hd] at this
        simpa [fetchLoop] using this
      | cons page2 rest2 =>
        subst hr
        have haid1 : aid ∈ trackArtists ((acc ++ page) ++ (page2 :: rest2).flatten) := by
          rw [List.append_assoc]
          simpa using haid
        exact ih (acc ++ page) st1 (by simp) aid haid1 hne

/-- A two-track album whose listing spans one page; its only track references
artist `"ar"`, and every artist catalog is a single empty page. -/
def envOnePage : SpotifyEnv :=
  { albumDetail := fun _ => "d",
    trackPages := fun _ => [[⟨["ar"]⟩]],
    artistAlbumPages := fun _ => [some []] }

/-- An album whose listing spans two pages referencing artists `"ar"` and
`"br"`; every artist catalog is a single empty page. -/
def envTwoPages : SpotifyEnv :=
  { albumDetail := fun _ => "d",
    trackPages := fun _ => [[⟨["ar"]⟩], [⟨["br"]⟩]],
    artistAlbumPages := fun _ => [some []] }

/-- C2. As stated the claim fails: with a single-page listing that fits in one
page, the discovery pass of `fetch_album` never runs (it sits inside the
`while results.get("next")` loop), so artist `"ar"`, referenced by the only
track, is never expanded — the state is returned entirely untouched. -/
theorem C2_counterexample :
    "ar" ∈ trackArtists ((envOnePage.trackPages "alb").flatten) ∧
    (fetch_album envOnePage initState "alb").2.1 = initState := by
  constructor <;> decide

/-- C2 (amended). When the track listing spans at least two pages (and the
first page is non-empty and no artist-catalog fetch fails), every non-null
artist id referenced by any track on any page has `discover_albums` invoked
for it, witnessed by its membership in the frontier set afterwards. With a
single-page listing no expansion happens at all. -/
theorem C2_theorem (env : SpotifyEnv) (st : PipeState) (id : String)
    (p0 : List Track) (rest : List (List Track))
    (hsplit : env.trackPages id = p0 :: rest) (hp0 : p0 ≠ []) (hrest : rest ≠ [])
    (hok : ∀ a, collectPages (env.artistAlbumPages a) ≠ none) :
    ((trackArtists (env.trackPages id).flatten).all fun aid =>
      aid == "" || (fetch_album env st id).2.1.discovered_artists.contains aid) = true := by
  rw [List.all_eq_true]
  intro aid haid
  by_cases hne : aid = ""
  · simp [hne]
  · rw [Bool.or_eq_true]
    right
    have hstate : (fetch_album env st id).2.1 = (fetchLoop env rest p0 st).2.1 := by
      unfold fetch_album
      rw [hsplit]
      simp only [if_neg hp0]
      cases hfl : fetchLoop env rest p0 st with
      | mk tracks r =>
        cases r with
        | mk st1 b =>
          cases b
          · simp only
            cases hre : rest.isEmpty <;> simp
          · simp
    have haid1 : aid ∈ trackArtists (p0 ++ rest.flatten) := by
      rw [hsplit] at haid
      simpa using haid
    have hmem : aid ∈ (fetchLoop env rest p0 st).2.1.discovered_artists :=
      fetchLoop_covers env hok rest p0 st hrest aid haid1 hne
    rw [hstate]
    exact List.elem_eq_true_of_mem hmem

/-- C2 witness: a two-page listing referencing `"ar"` and `"br"`; both ids end
up expanded. -/
theorem C2_witness :
    ((trackArtists (envTwoPages.trackPages "alb").flatten).all fun aid =>
      aid == "" ||
        (fetch_album envTwoPages initState "alb").2.1.discovered_artists.contains aid) =
      true :=
  C2_theorem envTwoPages initState "alb" [⟨["ar"]⟩] [[⟨["br"]⟩]] rfl
    (by decide) (by decide) (fun a => by simp [envTwoPages, collectPages])

/-- C3. As stated the claim fails: with exactly one non-empty page the
`album["tracks"] = tracks` assignment inside the pagination loop never runs,
so the payload upserted into the store keeps the raw paging value under its
`"tracks"` key instead of the accumulated track list. -/
theorem C3_counterexample :
    ((process_spotify_id envOnePage 0 0 initState "alb").1.store.lookup "alb") =
      some ⟨⟨"d", TracksVal.raw⟩, 0, RETENTION_MICROS⟩ ∧
    TracksVal.raw ≠ TracksVal.combined ((envOnePage.trackPages "alb").flatten) := by
  constructor <;> decide

/-- C3 (amended). When the track listing spans at least two pages (the first
non-empty, no artist-catalog fetch failing) and the id is not cached, the
upserted payload is the entry detail with its `"tracks"` key replaced by the
full accumulated listing across all pages; with a single-page listing the
payload keeps the raw `"tracks"` value of the detail blob instead. -/
theorem C3_theorem (env : SpotifyEnv) (t1 t2 : Nat) (st : PipeState) (id : String)
    (p0 : List Track) (rest : List (List Track))
    (hcache : st.cache.lookup (cacheKey id) = none)
    (hsplit : env.trackPages id = p0 :: rest) (hp0 : p0 ≠ []) (hrest : rest ≠ [])
    (hok : ∀ a, collectPages (env.artistAlbumPages a) ≠ none) :
    ((process_spotify_id env t1 t2 st id).1.store.lookup id) =
      some ⟨⟨env.albumDetail id, TracksVal.combined (env.trackPages id).flatten⟩,
        t1, t2 + RETENTION_MICROS⟩ ∧
    (process_spotify_id env t1 t2 st id).2 = false := by
  have hfetch : fetch_album env st id =
      (⟨env.albumDetail id, TracksVal.combined (p0 :: rest).flatten⟩,
        (fetchLoop env rest p0 st).2.1, false) := by
    unfold fetch_album
    rw [hsplit]
    simp only [if_neg hp0]
    obtain ⟨h1, h2⟩ := fetchLoop_ok env hok rest p0 st
    cases hfl : fetchLoop env rest p0 st with
    | mk tracks r =>
      cases r with
      | mk st1 b =>
        rw [hfl] at h1 h2
        simp only at h1 h2
        subst h2
        simp only
        have hre : rest.isEmpty = false := by
          cases rest with
          | nil => exact absurd rfl hrest
          | cons a b => rfl
        rw [hre]
        simp [h1]
  unfold process_spotify_id
  rw [hcache]
  simp only [Option.isSome_none, Bool.false_eq_true, if_false]
  rw [hfetch]
  simp only
  unfold insert_album
  rw [hsplit]
  exact ⟨lookup_upsertAssoc _ _ _, trivial⟩

/-- C3 witness: a two-page listing; the stored payload carries the combined
listing of both pages. -/
theorem C3_witness :
    ((process_spotify_id envTwoPages 4 9 initState "alb").1.store.lookup "alb") =
      some ⟨⟨"d", TracksVal.combined (envTwoPages.trackPages "alb").flatten⟩,
        4, 9 + RETENTION_MICROS⟩ ∧
    (process_spotify_id envTwoPages 4 9 initState "alb").2 = false :=
  C3_theorem envTwoPages 4 9 initState "alb" [⟨["ar"]⟩] [[⟨["br"]⟩]]
    rfl rfl (by decide) (by decide) (fun a => by simp [envTwoPages, collectPages])

/-- An artist whose catalog listing has a first page carrying album `"a1"`
followed by a page whose fetch raises. -/
def envFailPage : SpotifyEnv :=
  { albumDetail := fun _ => "",
    trackPages := fun _ => [],
    artistAlbumPages := fun _ => [some ["a1"], none] }

/-- C4. As stated the claim fails: the expansion of `"ar"` fetches a first
page enumerating album `"a1"`, the second page fetch raises, and nothing at
all is submitted to the queue — the already-enumerated `"a1"` is discarded
with the failure, not submitted. -/
theorem C4_counterexample :
    (discover_albums envFailPage initState "ar").2 = true ∧
    (discover_albums envFailPage initState "ar").1.queue = UniqueQueue.init ∧
    (discover_albums envFailPage initState "ar").1.discovered_albums = 0 ∧
    (⟨DISCOVERED_ALBUM_PRIORITY, "a1"⟩ : JobItem) ∉
      (discover_albums envFailPage initState "ar").1.queue.queue := by
  refine ⟨?_, ?_, ?_, ?_⟩ <;> decide

/-- C4 (amended). If any page fetch of a producer expansion fails, no catalog
entry is submitted at all — entries enumerated from earlier pages are
buffered locally and discarded when the exception escapes; the queue and the
discovered counter are untouched, the artist stays marked as expanded, and
the failure surfaces to the caller (a pipeline-level failure). -/
theorem C4_theorem (env : SpotifyEnv) (st : PipeState) (a : String)
    (hnew : a ∉ st.discovered_artists)
    (hfail : collectPages (env.artistAlbumPages a) = none) :
    discover_albums env st a =
      ({ st with discovered_artists := a :: st.discovered_artists }, true) := by
  unfold discover_albums
  rw [if_neg hnew, hfail]

/-- C4 witness: the failing expansion of `"ar"` returns with the exception
flag set and only the frontier marking changed. -/
theorem C4_witness :
    discover_albums envFailPage initState "ar" =
      ({ initState with discovered_artists := ["ar"] }, true) :=
  C4_theorem envFailPage initState "ar" (by decide) rfl

theorem runDrain_fst (fails : String → Bool) :
    ∀ (fuel : Nat) (q : UniqueQueue),
      (runDrain fails fuel q).map Prod.fst =
        (runDrain (fun _ => false) fuel q).map Prod.fst := by
  intro fuel
  induction fuel with
  | zero => intro q; rfl
  | succ n ih =>
    intro q
    cases hg : q.get with
    | none => simp [runDrain, hg]
    | some r =>
      obtain ⟨item, q1⟩ := r
      simp [runDrain, hg, ih q1]

theorem runDrain_perm (fails : String → Bool) :
    ∀ (fuel : Nat) (q : UniqueQueue), q.queue.length ≤ fuel →
      ((runDrain fails fuel q).map Prod.fst).Perm
        (q.queue.map JobItem.spotify_id) := by
  intro fuel
  induction fuel with
  | zero =>
    intro q hq
    have : q.queue = [] := List.eq_nil_of_length_eq_zero (Nat.le_zero.mp hq)
    simp [runDrain, this]
  | succ n ih =>
    intro q hq
    cases hg : q.get with
    | none =>
      rw [UniqueQueue.get_eq_none] at hg
      simp [runDrain, UniqueQueue.get_eq_none.mpr hg, hg]
    | some r =>
      obtain ⟨item, q1⟩ := r
      obtain ⟨hm, he, _⟩ := UniqueQueue.get_eq_some hg
      have hlen : q1.queue.length ≤ n := by
        rw [he, List.length_erase_of_mem hm]
        omega
      have hperm : q.queue.Perm (item :: q.queue.erase item) :=
        List.perm_cons_erase hm
      have htail := ih q1 hlen
      rw [he] at htail
      have hstep : (runDrain fails (n + 1) q).map Prod.fst =
          item.spotify_id :: ((runDrain fails n q1).map Prod.fst) := by
        simp [runDrain, hg]
      have h1 : (item.spotify_id :: ((runDrain fails n q1).map Prod.fst)).Perm
          (item.spotify_id :: ((q.queue.erase item).map JobItem.spotify_id)) :=
        htail.cons _
      have h2 : (q.queue.map JobItem.spotify_id).Perm
          (item.spotify_id :: ((q.queue.erase item).map JobItem.spotify_id)) :=
        hperm.map JobItem.spotify_id
      rw [hstep]
      exact h1.trans h2.symm

/-- C8. Failure isolation in the worker loop: draining the queue processes the
same ids in the same order whatever subset of them raises (the per-item
`except Exception` handler logs and continues, so a failure blocks nothing),
and the processed ids are exactly the pending ids — each item is processed
once and a failed item is never re-enqueued. -/
theorem C8_theorem (fails : String → Bool) (q : UniqueQueue) :
    (runDrain fails q.size q).map Prod.fst =
      (runDrain (fun _ => false) q.size q).map Prod.fst ∧
    ((runDrain fails q.size q).map Prod.fst).Perm
      (q.queue.map JobItem.spotify_id) :=
  ⟨runDrain_fst fails q.size q, runDrain_perm fails q.size q le_rfl⟩
